import Mathlib

/-!
Shallow embedding of the railway simulation in `src/Dynamic/app.py`.

The global dictionary `simulation_state['trains']` is keyed by train id and
each record's `"id"` field equals its key, so ids are unique; we model the
store as a `List Train` in dictionary (insertion) order.  Python floats are
modelled as real numbers, and `x ** 0.5` as `Real.sqrt`.
-/

/-- Embedding of one train record of `simulation_state['trains']`. -/
structure Train where
  id : String
  position_km : ℝ
  speed_kmh : ℝ
  target_speed_kmh : ℝ
  max_speed_kmh : ℝ
  braking_rate : ℝ
  priority : ℤ
  dispatched : Bool

/-- `SAFETY_MARGIN_METERS = 200` from app.py line 11. -/
def SAFETY_MARGIN_METERS : ℝ := 200

/-- `ACCELERATION_KMH_PER_TICK = 10.0` from app.py line 14. -/
def ACCELERATION_KMH_PER_TICK : ℝ := 10

/-- `TICK_RATE_SECONDS = 1.0` from app.py line 90. -/
def TICK_RATE_SECONDS : ℝ := 1

/-- Embedding of `calculate_braking_distance` (app.py lines 73-75). -/
noncomputable def calculate_braking_distance (speed_kmh braking_rate : ℝ) : ℝ :=
  let speed_mps := speed_kmh / 3.6
  speed_mps ^ 2 / (2 * braking_rate)

/-- Embedding of `calculate_dynamic_speed_limit` (app.py lines 77-87). -/
noncomputable def calculate_dynamic_speed_limit (following_train train_ahead : Train) : ℝ :=
  let braking_distance_ahead :=
    calculate_braking_distance train_ahead.speed_kmh train_ahead.braking_rate
  let safe_point_meters :=
    train_ahead.position_km * 1000 - braking_distance_ahead - SAFETY_MARGIN_METERS
  let distance_to_safe_point := safe_point_meters - following_train.position_km * 1000
  if distance_to_safe_point ≤ 0 then 0
  else
    min (Real.sqrt (2 * distance_to_safe_point * following_train.braking_rate) * 3.6)
      following_train.max_speed_kmh

/-- The governor as worded by the specification (claim C1): headroom is the ahead
train's position in meters minus its stopping distance minus the 200 m margin
minus the following train's position in meters; return `0` when headroom is
non-positive, otherwise `min` of the converted safe speed and `max_speed`.
This definition follows the spec's words, to be compared with the source
function `calculate_dynamic_speed_limit`. -/
noncomputable def spec_speed_limit (following_train train_ahead : Train) : ℝ :=
  let headroom := train_ahead.position_km * 1000 -
    (train_ahead.speed_kmh / 3.6) ^ 2 / (2 * train_ahead.braking_rate) - 200 -
    following_train.position_km * 1000
  if headroom ≤ 0 then 0
  else
    min (Real.sqrt (2 * headroom * following_train.braking_rate) * 3.6)
      following_train.max_speed_kmh

/-- C1: for every pair of trains with positive braking rates, the governor of the
source computes exactly the headroom-based limit stated by the specification:
`0` when headroom is non-positive, otherwise the braking-curve speed
`sqrt(2·headroom·braking_rate)` converted to km/h and clamped to `max_speed`. -/
theorem C1_governor_matches_spec (f a : Train)
    (hf : 0 < f.braking_rate) (ha : 0 < a.braking_rate) :
    calculate_dynamic_speed_limit f a = spec_speed_limit f a := by
  unfold calculate_dynamic_speed_limit spec_speed_limit calculate_braking_distance
  simp only [SAFETY_MARGIN_METERS]

/-- Concrete instantiation of C1: an express train following a goods train. -/
def c1_following : Train :=
  { id := "Express_101", position_km := 0, speed_kmh := 0, target_speed_kmh := 90,
    max_speed_kmh := 120, braking_rate := 0.8, priority := 1, dispatched := true }

/-- Concrete ahead train for the C1 witness. -/
def c1_ahead : Train :=
  { id := "Goods_301", position_km := 5, speed_kmh := 30, target_speed_kmh := 30,
    max_speed_kmh := 60, braking_rate := 0.6, priority := 3, dispatched := true }

/-- Witness for C1 at a concrete pair of trains with positive braking rates. -/
theorem C1_governor_matches_spec_witness :
    (0:ℝ) < c1_following.braking_rate ∧ (0:ℝ) < c1_ahead.braking_rate ∧
      calculate_dynamic_speed_limit c1_following c1_ahead =
        spec_speed_limit c1_following c1_ahead :=
  ⟨by norm_num [c1_following], by norm_num [c1_ahead],
    C1_governor_matches_spec c1_following c1_ahead (by norm_num [c1_following])
      (by norm_num [c1_ahead])⟩

/-- The sort key of app.py lines 94 and 130: `key=lambda t: t['position_km']`.
Python's `sorted` is a stable sort by this key; `List.insertionSort` with the
non-strict comparison below is stable in the same sense. -/
noncomputable def sortByPos (l : List Train) : List Train :=
  List.insertionSort (fun a b => a.position_km ≤ b.position_km) l

/-- The train following a given id in a list: `sorted_trains[i+1]` for the `i`
at which the train with that id sits (app.py lines 97-100).  Ids are unique in
the store, so looking up by id models selecting the same dictionary object. -/
def nextAfter : List Train → String → Option Train
  | [], _ => none
  | [_], _ => none
  | x :: y :: rest, tid => if x.id = tid then some y else nextAfter (y :: rest) tid

/-- One train's new speed for this tick (app.py lines 102-121): undispatched
trains are forced to `0`; otherwise the ceiling is `max_speed_kmh`, lowered by
the governor when a train is ahead; braking to the ceiling is instantaneous,
acceleration adds `ACCELERATION_KMH_PER_TICK` clamped to the ceiling. -/
noncomputable def speedStep (t : Train) (train_ahead : Option Train) : ℝ :=
  if t.dispatched = false then 0
  else
    let desired_limit := t.max_speed_kmh
    let safe_speed_limit :=
      match train_ahead with
      | none => desired_limit
      | some a => min desired_limit (calculate_dynamic_speed_limit t a)
    if safe_speed_limit < t.speed_kmh then safe_speed_limit
    else min safe_speed_limit (t.speed_kmh + ACCELERATION_KMH_PER_TICK)

/-- One full tick for one train of the store `s` (app.py lines 93-128): the
speed pass reads the pre-tick store (the train ahead is the next element of the
position-sorted snapshot and is mutated only after the current train), then the
position pass advances dispatched trains by `speed · TICK_RATE_SECONDS/3600`. -/
noncomputable def tickTrain (s : List Train) (t : Train) : Train :=
  let t1 : Train := { t with speed_kmh := speedStep t (nextAfter (sortByPos s) t.id) }
  if t1.dispatched then
    { t1 with position_km := t1.position_km + t1.speed_kmh * (TICK_RATE_SECONDS / 3600) }
  else t1

/-- One iteration of `simulation_loop`'s body (app.py lines 93-128) on the
train store; the safety audit (lines 130-142) only prints and the display only
reads, so the post-tick store is the map of `tickTrain` over the store. -/
noncomputable def tick (s : List Train) : List Train :=
  s.map (tickTrain s)

/-- The governor never returns a negative limit when the following train's
configured maximum speed is non-negative. -/
lemma calculate_dynamic_speed_limit_nonneg (f a : Train) (h : 0 ≤ f.max_speed_kmh) :
    0 ≤ calculate_dynamic_speed_limit f a := by
  unfold calculate_dynamic_speed_limit
  dsimp only
  split
  · exact le_refl 0
  · exact le_min (by positivity) h

/-- The per-tick speed update keeps the speed inside `[0, max_speed_kmh]`. -/
lemma speedStep_bounds (t : Train) (train_ahead : Option Train)
    (h0 : 0 ≤ t.speed_kmh) (h1 : t.speed_kmh ≤ t.max_speed_kmh) :
    0 ≤ speedStep t train_ahead ∧ speedStep t train_ahead ≤ t.max_speed_kmh := by
  have hmax : 0 ≤ t.max_speed_kmh := le_trans h0 h1
  have hstep : 0 ≤ t.speed_kmh + ACCELERATION_KMH_PER_TICK := by
    unfold ACCELERATION_KMH_PER_TICK; linarith
  unfold speedStep
  cases hd : t.dispatched with
  | false =>
    rw [if_pos rfl]
    exact ⟨le_refl 0, hmax⟩
  | true =>
    rw [if_neg (by simp)]
    dsimp only
    cases train_ahead with
    | none =>
      constructor
      · split
        · exact hmax
        · exact le_min hmax hstep
      · split
        · exact le_refl _
        · exact min_le_left _ _
    | some a =>
      have hg : 0 ≤ calculate_dynamic_speed_limit t a :=
        calculate_dynamic_speed_limit_nonneg t a hmax
      have hsafe0 : 0 ≤ min t.max_speed_kmh (calculate_dynamic_speed_limit t a) :=
        le_min hmax hg
      constructor
      · split
        · exact hsafe0
        · exact le_min hsafe0 hstep
      · split
        · exact min_le_left _ _
        · exact le_trans (min_le_left _ _) (min_le_left _ _)

/-- The tick never changes a train's identifier, configuration fields or
dispatched flag; its new speed is the governed speed. -/
lemma tickTrain_fields (s : List Train) (t : Train) :
    (tickTrain s t).id = t.id ∧
      (tickTrain s t).target_speed_kmh = t.target_speed_kmh ∧
      (tickTrain s t).max_speed_kmh = t.max_speed_kmh ∧
      (tickTrain s t).braking_rate = t.braking_rate ∧
      (tickTrain s t).priority = t.priority ∧
      (tickTrain s t).dispatched = t.dispatched ∧
      (tickTrain s t).speed_kmh = speedStep t (nextAfter (sortByPos s) t.id) := by
  unfold tickTrain
  dsimp only
  split <;> simp

/-- C2: the per-tick speed update (forcing 0 when undispatched, instantaneous
braking to the ceiling, or acceleration by the fixed increment clamped to the
ceiling) preserves `0 ≤ speed_kmh ≤ max_speed_kmh` for every train and store. -/
theorem C2_speed_bounds_preserved (s : List Train) (t : Train)
    (h0 : 0 ≤ t.speed_kmh) (h1 : t.speed_kmh ≤ t.max_speed_kmh) :
    0 ≤ (tickTrain s t).speed_kmh ∧
      (tickTrain s t).speed_kmh ≤ (tickTrain s t).max_speed_kmh := by
  obtain ⟨-, -, hmax, -, -, -, hspeed⟩ := tickTrain_fields s t
  rw [hspeed, hmax]
  exact speedStep_bounds t _ h0 h1

/-- The trains of the initial store (app.py lines 20-27); `Goods_301` is also
given with its `dispatched` flag already set by the dispatcher. -/
def goods301 : Train :=
  { id := "Goods_301", position_km := 0, speed_kmh := 0, target_speed_kmh := 30,
    max_speed_kmh := 60, braking_rate := 0.6, priority := 3, dispatched := false }

/-- `Goods_302` in its initial, undispatched configuration. -/
def goods302 : Train :=
  { id := "Goods_302", position_km := 0, speed_kmh := 0, target_speed_kmh := 30,
    max_speed_kmh := 60, braking_rate := 0.6, priority := 3, dispatched := false }

/-- `Express_102` in its initial, undispatched configuration. -/
def express102 : Train :=
  { id := "Express_102", position_km := 0, speed_kmh := 0, target_speed_kmh := 90,
    max_speed_kmh := 120, braking_rate := 0.8, priority := 1, dispatched := false }

/-- `Goods_301` after the dispatcher has released it. -/
def goods301d : Train :=
  { goods301 with dispatched := true }

/-- Witness for C2 at the dispatched `Goods_301` in a singleton store. -/
theorem C2_speed_bounds_preserved_witness :
    (0:ℝ) ≤ goods301d.speed_kmh ∧ goods301d.speed_kmh ≤ goods301d.max_speed_kmh ∧
      (0 ≤ (tickTrain [goods301d] goods301d).speed_kmh ∧
        (tickTrain [goods301d] goods301d).speed_kmh ≤
          (tickTrain [goods301d] goods301d).max_speed_kmh) :=
  ⟨by norm_num [goods301d, goods301], by norm_num [goods301d, goods301],
    C2_speed_bounds_preserved [goods301d] goods301d
      (by norm_num [goods301d, goods301]) (by norm_num [goods301d, goods301])⟩

/-- C6: a dispatched train's per-tick position update adds exactly
`speed_kmh · (TICK_RATE_SECONDS/3600)`, which is non-negative whenever the
speed invariant held before the tick, so the position never decreases; the
dispatched flag itself is never changed by the tick. -/
theorem C6_position_monotone (s : List Train) (t : Train)
    (hd : t.dispatched = true) (h0 : 0 ≤ t.speed_kmh) (h1 : t.speed_kmh ≤ t.max_speed_kmh) :
    (tickTrain s t).position_km =
        t.position_km + (tickTrain s t).speed_kmh * (TICK_RATE_SECONDS / 3600) ∧
      t.position_km ≤ (tickTrain s t).position_km ∧
      (tickTrain s t).dispatched = t.dispatched := by
  have hs := (speedStep_bounds t (nextAfter (sortByPos s) t.id) h0 h1).1
  have hspeed : (tickTrain s t).speed_kmh = speedStep t (nextAfter (sortByPos s) t.id) :=
    (tickTrain_fields s t).2.2.2.2.2.2
  have hdisp : (tickTrain s t).dispatched = t.dispatched :=
    (tickTrain_fields s t).2.2.2.2.2.1
  have hpos : (tickTrain s t).position_km =
      t.position_km + speedStep t (nextAfter (sortByPos s) t.id) * (TICK_RATE_SECONDS / 3600) := by
    unfold tickTrain
    dsimp only
    rw [if_pos hd]
  refine ⟨by rw [hpos, hspeed], ?_, hdisp⟩
  rw [hpos]
  have : 0 ≤ speedStep t (nextAfter (sortByPos s) t.id) * (TICK_RATE_SECONDS / 3600) := by
    apply mul_nonneg hs
    norm_num [TICK_RATE_SECONDS]
  linarith

/-- Witness for C6 at the dispatched `Goods_301` in a singleton store. -/
theorem C6_position_monotone_witness :
    goods301d.dispatched = true ∧ (0:ℝ) ≤ goods301d.speed_kmh ∧
      goods301d.speed_kmh ≤ goods301d.max_speed_kmh ∧
      goods301d.position_km ≤ (tickTrain [goods301d] goods301d).position_km :=
  ⟨rfl, by norm_num [goods301d, goods301], by norm_num [goods301d, goods301],
    (C6_position_monotone [goods301d] goods301d rfl (by norm_num [goods301d, goods301])
      (by norm_num [goods301d, goods301])).2.1⟩

/-- C7: a tick leaves an undispatched train stopped and otherwise untouched:
its speed is forced to `0`, and its position, `target_speed_kmh`,
`max_speed_kmh`, `braking_rate` and `priority` (and id and flag) are
unchanged. -/
theorem C7_undispatched_frame (s : List Train) (t : Train) (hd : t.dispatched = false) :
    (tickTrain s t).speed_kmh = 0 ∧
      (tickTrain s t).position_km = t.position_km ∧
      (tickTrain s t).target_speed_kmh = t.target_speed_kmh ∧
      (tickTrain s t).max_speed_kmh = t.max_speed_kmh ∧
      (tickTrain s t).braking_rate = t.braking_rate ∧
      (tickTrain s t).priority = t.priority ∧
      (tickTrain s t).id = t.id ∧
      (tickTrain s t).dispatched = t.dispatched := by
  unfold tickTrain speedStep
  dsimp only
  simp [hd]

/-- Witness for C7 at the undispatched `Goods_302` in a two-train store. -/
theorem C7_undispatched_frame_witness :
    goods302.dispatched = false ∧
      (tickTrain [goods301d, goods302] goods302).speed_kmh = 0 ∧
      (tickTrain [goods301d, goods302] goods302).position_km = goods302.position_km :=
  ⟨rfl, (C7_undispatched_frame [goods301d, goods302] goods302 rfl).1,
    (C7_undispatched_frame [goods301d, goods302] goods302 rfl).2.1⟩

/-- Sorting a two-train snapshot whose store order already agrees with the
position order (Python's sort is stable, so exact ties also keep store order). -/
lemma sortByPos_pair (f a : Train) (h : f.position_km ≤ a.position_km) :
    sortByPos [f, a] = [f, a] := by
  unfold sortByPos
  simp [List.insertionSort, List.orderedInsert, h]

/-- A singleton snapshot is already sorted. -/
lemma sortByPos_single (t : Train) : sortByPos [t] = [t] := by
  unfold sortByPos
  simp [List.insertionSort, List.orderedInsert]

/-- In a two-train snapshot the first train's successor is the second train. -/
lemma nextAfter_pair (f a : Train) : nextAfter [f, a] f.id = some a := by
  simp [nextAfter]

/-- The last (hence any singleton) train has no successor. -/
lemma nextAfter_single (t : Train) (tid : String) : nextAfter [t] tid = none :=
  rfl

/-- The governor returns `0` as soon as the headroom is non-positive. -/
lemma calculate_dynamic_speed_limit_eq_zero (f a : Train)
    (h : a.position_km * 1000 - calculate_braking_distance a.speed_kmh a.braking_rate -
      SAFETY_MARGIN_METERS - f.position_km * 1000 ≤ 0) :
    calculate_dynamic_speed_limit f a = 0 := by
  unfold calculate_dynamic_speed_limit
  dsimp only
  rw [if_pos h]

/-- A dispatched train whose governor limit is `0` ends the speed pass at `0`:
either it brakes instantaneously to the ceiling or it "accelerates" to
`min 0 (speed + step) = 0`. -/
lemma speedStep_zero_limit (f a : Train) (hdf : f.dispatched = true)
    (h0 : 0 ≤ f.speed_kmh) (hm : 0 ≤ f.max_speed_kmh)
    (hgov : calculate_dynamic_speed_limit f a = 0) :
    speedStep f (some a) = 0 := by
  unfold speedStep
  rw [if_neg (by simp [hdf])]
  dsimp only
  rw [hgov, min_eq_right hm]
  split
  · rfl
  · refine min_eq_left ?_
    have : (0:ℝ) ≤ ACCELERATION_KMH_PER_TICK := by unfold ACCELERATION_KMH_PER_TICK; norm_num
    linarith

/-- A dispatched train with no train ahead accelerates to
`min max_speed (speed + step)`, provided its speed is at most `max_speed`. -/
lemma speedStep_none (f : Train) (hdf : f.dispatched = true)
    (h1 : f.speed_kmh ≤ f.max_speed_kmh) :
    speedStep f none = min f.max_speed_kmh (f.speed_kmh + ACCELERATION_KMH_PER_TICK) := by
  unfold speedStep
  rw [if_neg (by simp [hdf])]
  dsimp only
  rw [if_neg (not_lt.mpr h1)]

/-- C3, corrected: undispatched trains do take part in the ahead/behind
ordering.  A dispatched train `f` whose position-sorted successor is an
undispatched train `a` sitting within the ahead train's stopping envelope gets
governed speed `0`, while the very same train in an otherwise identical store
without `a` accelerates to a positive speed: the presence of the undispatched
train changes both the governor input and the resulting speed. -/
theorem C3_amended_undispatched_participates (f a : Train)
    (hdf : f.dispatched = true) (hda : a.dispatched = false)
    (h0 : 0 ≤ f.speed_kmh) (h1 : f.speed_kmh ≤ f.max_speed_kmh) (hm : 0 < f.max_speed_kmh)
    (hpos : f.position_km ≤ a.position_km)
    (hhead : a.position_km * 1000 - calculate_braking_distance a.speed_kmh a.braking_rate -
      SAFETY_MARGIN_METERS - f.position_km * 1000 ≤ 0) :
    nextAfter (sortByPos [f, a]) f.id = some a ∧
      (tickTrain [f, a] f).speed_kmh = 0 ∧
      0 < (tickTrain [f] f).speed_kmh := by
  have hsort := sortByPos_pair f a hpos
  have hnext : nextAfter (sortByPos [f, a]) f.id = some a := by
    rw [hsort]; exact nextAfter_pair f a
  have hgov := calculate_dynamic_speed_limit_eq_zero f a hhead
  have hs1 : (tickTrain [f, a] f).speed_kmh = 0 := by
    rw [(tickTrain_fields [f, a] f).2.2.2.2.2.2, hnext]
    exact speedStep_zero_limit f a hdf h0 hm.le hgov
  have hs2 : 0 < (tickTrain [f] f).speed_kmh := by
    rw [(tickTrain_fields [f] f).2.2.2.2.2.2, sortByPos_single, nextAfter_single,
      speedStep_none f hdf h1]
    have hacc : (0:ℝ) < ACCELERATION_KMH_PER_TICK := by
      unfold ACCELERATION_KMH_PER_TICK; norm_num
    exact lt_min hm (by linarith)
  exact ⟨hnext, hs1, hs2⟩

/-- Witness for the corrected C3 at the dispatched `Goods_301` held at the
origin by the still-undispatched `Goods_302`. -/
theorem C3_amended_undispatched_participates_witness :
    goods301d.dispatched = true ∧ goods302.dispatched = false ∧
      (tickTrain [goods301d, goods302] goods301d).speed_kmh = 0 ∧
      0 < (tickTrain [goods301d] goods301d).speed_kmh := by
  have h := C3_amended_undispatched_participates goods301d goods302
    rfl rfl (by norm_num [goods301d, goods301]) (by norm_num [goods301d, goods301])
    (by norm_num [goods301d, goods301]) (by norm_num [goods301d, goods301, goods302])
    (by norm_num [goods301d, goods301, goods302, calculate_braking_distance,
      SAFETY_MARGIN_METERS])
  exact ⟨rfl, rfl, h.2.1, h.2.2⟩

/-- Counterexample to C3 as stated: in the two-train store
`[Goods_301 (dispatched), Goods_302 (undispatched)]`, both at the origin, the
"ahead" train handed to the governor is the undispatched `Goods_302`, and the
dispatched train's post-tick speed is `0`, whereas without the undispatched
train present it would be `10` km/h — so an undispatched train does change the
governor input and resulting speed of a dispatched train. -/
theorem C3_counterexample :
    goods301d.dispatched = true ∧ goods302.dispatched = false ∧
      nextAfter (sortByPos [goods301d, goods302]) goods301d.id = some goods302 ∧
      (tickTrain [goods301d, goods302] goods301d).speed_kmh = 0 ∧
      (tickTrain [goods301d] goods301d).speed_kmh = 10 := by
  have hsort : sortByPos [goods301d, goods302] = [goods301d, goods302] :=
    sortByPos_pair _ _ (by norm_num [goods301d, goods301, goods302])
  have hnext : nextAfter (sortByPos [goods301d, goods302]) goods301d.id = some goods302 := by
    rw [hsort]; exact nextAfter_pair _ _
  have hgov : calculate_dynamic_speed_limit goods301d goods302 = 0 :=
    calculate_dynamic_speed_limit_eq_zero _ _
      (by norm_num [goods301d, goods301, goods302, calculate_braking_distance,
        SAFETY_MARGIN_METERS])
  refine ⟨rfl, rfl, hnext, ?_, ?_⟩
  · rw [(tickTrain_fields [goods301d, goods302] goods301d).2.2.2.2.2.2, hnext]
    exact speedStep_zero_limit _ _ rfl (by norm_num [goods301d, goods301])
      (by norm_num [goods301d, goods301]) hgov
  · rw [(tickTrain_fields [goods301d] goods301d).2.2.2.2.2.2, sortByPos_single,
      nextAfter_single, speedStep_none _ rfl (by norm_num [goods301d, goods301])]
    norm_num [goods301d, goods301, ACCELERATION_KMH_PER_TICK]

/-- Inserting a train walks past exactly those trains with a strictly smaller
position, so the trains at any fixed position keep their relative order. -/
lemma filter_pos_orderedInsert (a : Train) (l : List Train) (p : ℝ) :
    (List.orderedInsert (fun x y : Train => x.position_km ≤ y.position_km) a l).filter
        (fun t => decide (t.position_km = p)) =
      if a.position_km = p then
        a :: l.filter (fun t => decide (t.position_km = p))
      else l.filter (fun t => decide (t.position_km = p)) := by
  induction l with
  | nil =>
    show List.filter _ [a] = _
    by_cases hap : a.position_km = p <;> simp [List.filter, hap]
  | cons b l ih =>
    rw [List.orderedInsert]
    by_cases hab : a.position_km ≤ b.position_km
    · rw [if_pos hab]
      by_cases hap : a.position_km = p <;> simp [List.filter_cons, hap]
    · have hba : b.position_km < a.position_km := lt_of_not_le hab
      rw [if_neg hab]
      by_cases hap : a.position_km = p
      · have hbp : ¬ b.position_km = p := fun e => absurd (hap.trans e.symm) (ne_of_gt hba)
        simp [List.filter_cons, hap, hbp, ih]
      · simp [List.filter_cons, hap, ih]

/-- Python's position-keyed sort is stable: for every position value, the
sublist of trains at exactly that position is the same, in the same order, as
in the unsorted store. -/
lemma sortByPos_stable (l : List Train) (p : ℝ) :
    (sortByPos l).filter (fun t => decide (t.position_km = p)) =
      l.filter (fun t => decide (t.position_km = p)) := by
  induction l with
  | nil => rfl
  | cons a l ih =>
    unfold sortByPos at ih ⊢
    show (List.orderedInsert _ a (List.insertionSort _ l)).filter _ = _
    rw [filter_pos_orderedInsert, List.filter_cons]
    split <;> simp_all

/-- The position comparison is total. -/
instance : IsTotal Train (fun a b : Train => a.position_km ≤ b.position_km) :=
  ⟨fun a b => le_total _ _⟩

/-- The position comparison is transitive. -/
instance : IsTrans Train (fun a b : Train => a.position_km ≤ b.position_km) :=
  ⟨fun _ _ _ => le_trans⟩

/-- C5, corrected: both per-tick sorts (app.py lines 94 and 130) order trains
by ascending position, and ties are broken by the order in which trains appear
in the state store (the sort is a stable permutation), not by identifier. -/
theorem C5_amended_stable_sort_by_position (l : List Train) :
    List.Perm (sortByPos l) l ∧
      List.Sorted (fun a b : Train => a.position_km ≤ b.position_km) (sortByPos l) ∧
      ∀ p : ℝ, (sortByPos l).filter (fun t => decide (t.position_km = p)) =
        l.filter (fun t => decide (t.position_km = p)) :=
  ⟨List.perm_insertionSort _ l, List.sorted_insertionSort _ l, fun p => sortByPos_stable l p⟩

/-- Counterexample to C5 as stated: `Goods_301` and `Express_102` share the
exact position `0`, the identifier `"Express_102"` is smaller, yet the sort
keeps the store order `[Goods_301, Express_102]` — the tie is NOT broken by
identifier. -/
theorem C5_counterexample :
    goods301.position_km = express102.position_km ∧
      express102.id < goods301.id ∧
      sortByPos [goods301, express102] = [goods301, express102] ∧
      sortByPos [goods301, express102] ≠ [express102, goods301] := by
  have hlt : express102.id < goods301.id := by
    show ("Express_102" : String) < "Goods_301"
    rw [String.lt_iff_toList_lt]
    decide
  refine ⟨by norm_num [goods301, express102], hlt, ?_, ?_⟩
  · exact sortByPos_pair _ _ (by norm_num [goods301, express102])
  · rw [sortByPos_pair _ _ (by norm_num [goods301, express102])]
    intro h
    have hhead : some goods301 = some express102 := by
      simpa using congrArg List.head? h
    have hid : goods301.id = express102.id := by
      rw [Option.some.injEq] at hhead
      exact congrArg Train.id hhead
    simp [goods301, express102] at hid

/-- Two train records that agree on every field except possibly the configured
`target_speed_kmh`. -/
def AgreeExceptTarget (a b : Train) : Prop :=
  a.id = b.id ∧ a.position_km = b.position_km ∧ a.speed_kmh = b.speed_kmh ∧
    a.max_speed_kmh = b.max_speed_kmh ∧ a.braking_rate = b.braking_rate ∧
    a.priority = b.priority ∧ a.dispatched = b.dispatched

/-- The governor never reads `target_speed_kmh`. -/
lemma calculate_dynamic_speed_limit_congr {f f' a a' : Train}
    (hf : AgreeExceptTarget f f') (ha : AgreeExceptTarget a a') :
    calculate_dynamic_speed_limit f a = calculate_dynamic_speed_limit f' a' := by
  obtain ⟨-, hf2, -, hf4, hf5, -, -⟩ := hf
  obtain ⟨-, ha2, ha3, -, ha5, -, -⟩ := ha
  unfold calculate_dynamic_speed_limit calculate_braking_distance
  rw [hf2, hf4, hf5, ha2, ha3, ha5]

/-- The per-tick speed update never reads `target_speed_kmh`: the ceiling comes
from `max_speed_kmh` (the `target_speed_kmh` fallback of app.py line 108 is
unreachable because every record carries `max_speed_kmh`). -/
lemma speedStep_congr {t t' : Train} {o o' : Option Train}
    (ht : AgreeExceptTarget t t') (ho : Option.Rel AgreeExceptTarget o o') :
    speedStep t o = speedStep t' o' := by
  have ht3 := ht.2.2.1
  have ht4 := ht.2.2.2.1
  have ht7 := ht.2.2.2.2.2.2
  unfold speedStep
  cases ho with
  | none => rw [ht3, ht4, ht7]
  | some ha =>
    dsimp only
    rw [ht3, ht4, ht7, calculate_dynamic_speed_limit_congr ht ha]

/-- Ordered insertion only compares positions, so it respects the relation. -/
lemma orderedInsert_congr {a a' : Train} {l l' : List Train}
    (ha : AgreeExceptTarget a a') (hl : List.Forall₂ AgreeExceptTarget l l') :
    List.Forall₂ AgreeExceptTarget
      (List.orderedInsert (fun x y : Train => x.position_km ≤ y.position_km) a l)
      (List.orderedInsert (fun x y : Train => x.position_km ≤ y.position_km) a' l') := by
  induction hl with
  | nil => exact List.Forall₂.cons ha List.Forall₂.nil
  | cons hb hrest ih =>
    rename_i b b' bs bs'
    show List.Forall₂ _ (List.orderedInsert _ a (b :: bs)) (List.orderedInsert _ a' (b' :: bs'))
    rw [List.orderedInsert, List.orderedInsert]
    by_cases hab : a.position_km ≤ b.position_km
    · rw [if_pos hab, if_pos (by rw [← ha.2.1, ← hb.2.1]; exact hab)]
      exact List.Forall₂.cons ha (List.Forall₂.cons hb hrest)
    · rw [if_neg hab, if_neg (by rw [← ha.2.1, ← hb.2.1]; exact hab)]
      exact List.Forall₂.cons hb ih

/-- The sorted snapshot respects the relation, elementwise. -/
lemma sortByPos_congr {l l' : List Train} (h : List.Forall₂ AgreeExceptTarget l l') :
    List.Forall₂ AgreeExceptTarget (sortByPos l) (sortByPos l') := by
  unfold sortByPos
  induction h with
  | nil => exact List.Forall₂.nil
  | cons hx hrest ih => exact orderedInsert_congr hx ih

/-- Successor lookup respects the relation (ids agree along it). -/
lemma nextAfter_congr {l l' : List Train} (h : List.Forall₂ AgreeExceptTarget l l')
    (tid : String) :
    Option.Rel AgreeExceptTarget (nextAfter l tid) (nextAfter l' tid) := by
  induction h with
  | nil => exact Option.Rel.none
  | cons hx hrest ih =>
    rename_i x x' xs xs'
    cases hrest with
    | nil => exact Option.Rel.none
    | cons hy hrest2 =>
      rename_i y y' ys ys'
      show Option.Rel _ (nextAfter (x :: y :: ys) tid) (nextAfter (x' :: y' :: ys') tid)
      rw [nextAfter, nextAfter]
      by_cases hid : x.id = tid
      · rw [if_pos hid, if_pos (by rw [← hx.1]; exact hid)]
        exact Option.Rel.some hy
      · rw [if_neg hid, if_neg (by rw [← hx.1]; exact hid)]
        exact ih

/-- A full per-train tick respects the relation: no part of it reads
`target_speed_kmh`. -/
lemma tickTrain_congr {s s' : List Train} {t t' : Train}
    (hs : List.Forall₂ AgreeExceptTarget s s') (ht : AgreeExceptTarget t t') :
    AgreeExceptTarget (tickTrain s t) (tickTrain s' t') := by
  have hnext : Option.Rel AgreeExceptTarget
      (nextAfter (sortByPos s) t.id) (nextAfter (sortByPos s') t.id) :=
    nextAfter_congr (sortByPos_congr hs) t.id
  have hspeed : speedStep t (nextAfter (sortByPos s) t.id) =
      speedStep t' (nextAfter (sortByPos s') t'.id) := by
    rw [← ht.1]
    exact speedStep_congr ht hnext
  unfold tickTrain
  dsimp only
  by_cases hd : t.dispatched = true
  · have hd' : t'.dispatched = true := by rw [← ht.2.2.2.2.2.2]; exact hd
    rw [if_pos hd, if_pos hd']
    refine ⟨ht.1, ?_, hspeed, ht.2.2.2.1, ht.2.2.2.2.1, ht.2.2.2.2.2.1,
      ht.2.2.2.2.2.2⟩
    show t.position_km + _ * _ = t'.position_km + _ * _
    rw [ht.2.1, hspeed]
  · have hd' : ¬ t'.dispatched = true := by rw [← ht.2.2.2.2.2.2]; exact hd
    rw [if_neg hd, if_neg hd']
    exact ⟨ht.1, ht.2.1, hspeed, ht.2.2.2.1, ht.2.2.2.2.1, ht.2.2.2.2.2.1,
      ht.2.2.2.2.2.2⟩

/-- One full tick of the store respects the relation. -/
lemma tick_congr {s s' : List Train} (hs : List.Forall₂ AgreeExceptTarget s s') :
    List.Forall₂ AgreeExceptTarget (tick s) (tick s') := by
  unfold tick
  have aux : ∀ {l l' : List Train}, List.Forall₂ AgreeExceptTarget l l' →
      List.Forall₂ AgreeExceptTarget (l.map (tickTrain s)) (l'.map (tickTrain s')) := by
    intro l l' h
    induction h with
    | nil => exact List.Forall₂.nil
    | cons hx hrest ih => exact List.Forall₂.cons (tickTrain_congr hs hx) ih
  exact aux hs

/-- Iterating the tick preserves the relation. -/
lemma tick_iterate_congr (n : ℕ) :
    ∀ {s s' : List Train}, List.Forall₂ AgreeExceptTarget s s' →
      List.Forall₂ AgreeExceptTarget (tick^[n] s) (tick^[n] s') := by
  induction n with
  | zero => intro s s' hs; simpa using hs
  | succ n ih =>
    intro s s' hs
    rw [Function.iterate_succ_apply, Function.iterate_succ_apply]
    exact ih (tick_congr hs)

/-- Along the relation, observed speeds and positions coincide. -/
lemma forall₂_speed_position_eq {l l' : List Train}
    (h : List.Forall₂ AgreeExceptTarget l l') :
    l.map (fun t => t.speed_kmh) = l'.map (fun t => t.speed_kmh) ∧
      l.map (fun t => t.position_km) = l'.map (fun t => t.position_km) := by
  induction h with
  | nil => exact ⟨rfl, rfl⟩
  | cons hx hrest ih =>
    exact ⟨by simp only [List.map_cons, hx.2.2.1, ih.1],
      by simp only [List.map_cons, hx.2.1, ih.2]⟩

/-- C10: `target_speed_kmh` never influences the simulation.  Two stores that
agree on everything except the trains' `target_speed_kmh` values produce
identical speeds and positions for every train at every tick: the per-tick
ceiling is taken from `max_speed_kmh`, so the `target_speed_kmh` fallback of
app.py line 108 is never consulted. -/
theorem C10_target_speed_noninterference (s s' : List Train) (n : ℕ)
    (hs : List.Forall₂ AgreeExceptTarget s s') :
    (tick^[n] s).map (fun t => t.speed_kmh) =
        (tick^[n] s').map (fun t => t.speed_kmh) ∧
      (tick^[n] s).map (fun t => t.position_km) =
        (tick^[n] s').map (fun t => t.position_km) :=
  forall₂_speed_position_eq (tick_iterate_congr n hs)

/-- `Goods_301` dispatched, with its configured target speed replaced. -/
def goods301d99 : Train :=
  { goods301d with target_speed_kmh := 99 }

/-- Witness for C10: a dispatched `Goods_301` with target speed 30 versus the
same train with target speed 99, run for three ticks. -/
theorem C10_target_speed_noninterference_witness :
    List.Forall₂ AgreeExceptTarget [goods301d] [goods301d99] ∧
      (tick^[3] [goods301d]).map (fun t => t.speed_kmh) =
        (tick^[3] [goods301d99]).map (fun t => t.speed_kmh) :=
  have hrel : List.Forall₂ AgreeExceptTarget [goods301d] [goods301d99] :=
    List.Forall₂.cons ⟨rfl, rfl, rfl, rfl, rfl, rfl, rfl⟩ List.Forall₂.nil
  ⟨hrel, (C10_target_speed_noninterference [goods301d] [goods301d99] 3 hrel).1⟩

/-- Embedding of one iteration of `dispatcher_loop`'s body (app.py lines
197-201): if the id is present and the train is not yet dispatched, set its
flag; otherwise leave the store untouched.  The store is keyed by id, so the
update touches exactly the record with the given id. -/
def dispatchTrain (tid : String) (s : List Train) : List Train :=
  s.map (fun t =>
    if t.id = tid ∧ t.dispatched = false then { t with dispatched := true } else t)

/-- Embedding of `dispatcher_loop` (app.py lines 192-204) acting on the train
store: each identifier of the dispatch sequence is processed exactly once, in
the configured order (the inter-release sleep does not touch the store). -/
def dispatcher_loop (dispatch_sequence : List String) (s : List Train) : List Train :=
  dispatch_sequence.foldl (fun st tid => dispatchTrain tid st) s

/-- Re-setting an already-set dispatched flag is the identity on the record. -/
lemma set_dispatched_eq_self (t : Train) (h : t.dispatched = true) :
    ({ t with dispatched := true } : Train) = t := by
  cases t
  simp_all

/-- The dispatcher's net effect on the store: every train whose id is listed
ends dispatched, every other train is untouched. -/
lemma dispatcher_loop_eq_map (seq : List String) (s : List Train) :
    dispatcher_loop seq s =
      s.map (fun t => if t.id ∈ seq then { t with dispatched := true } else t) := by
  induction seq generalizing s with
  | nil =>
    simp [dispatcher_loop]
  | cons tid rest ih =>
    show dispatcher_loop rest (dispatchTrain tid s) = _
    rw [ih, dispatchTrain, List.map_map]
    refine List.map_congr_left (fun t _ => ?_)
    dsimp only [Function.comp]
    by_cases h1 : t.id = tid ∧ t.dispatched = false
    · rw [if_pos h1]
      dsimp only
      have hmem : t.id ∈ tid :: rest := by rw [h1.1]; exact List.mem_cons_self _ _
      rw [if_pos hmem]
      by_cases h2 : t.id ∈ rest
      · rw [if_pos h2]
      · rw [if_neg h2]
    · rw [if_neg h1]
      by_cases h2 : t.id ∈ rest
      · rw [if_pos h2, if_pos (List.mem_cons_of_mem _ h2)]
      · rw [if_neg h2]
        by_cases h3 : t.id = tid
        · have hd : t.dispatched = true := by
            rcases Bool.eq_false_or_eq_true t.dispatched with h | h
            · exact h
            · exact absurd ⟨h3, h⟩ h1
          rw [if_pos (show t.id ∈ tid :: rest by rw [h3]; exact List.mem_cons_self _ _),
            set_dispatched_eq_self t hd]
        · rw [if_neg (by simp [h3, h2])]

/-- C8: the dispatcher processes the configured identifiers in order, exactly
once each, and its net effect sets the dispatched flag of exactly the listed
trains; dispatching an identifier that is unknown, or whose train is already
dispatched, leaves the store unchanged. -/
theorem C8_dispatcher_exact (seq : List String) (s : List Train) (tid : String) :
    dispatcher_loop seq s =
        s.map (fun t => if t.id ∈ seq then { t with dispatched := true } else t) ∧
      ((∀ t ∈ s, t.id ≠ tid) → dispatchTrain tid s = s) ∧
      ((∀ t ∈ s, t.id = tid → t.dispatched = true) → dispatchTrain tid s = s) := by
  refine ⟨dispatcher_loop_eq_map seq s, fun h => ?_, fun h => ?_⟩
  · rw [dispatchTrain,
      List.map_congr_left (fun t ht => if_neg (fun hc => h t ht hc.1)), List.map_id']
  · rw [dispatchTrain, List.map_congr_left (fun t ht =>
      if_neg (fun hc => by rw [h t ht hc.1] at hc; exact absurd hc.2 (by simp))),
      List.map_id']

/-- Witness for C8: the program's own dispatch sequence prefix acting on a
store holding `Goods_301` (undispatched) and `Goods_302`; the unknown id
`"Express_999"` and the already-dispatched `Goods_301` are no-ops. -/
theorem C8_dispatcher_exact_witness :
    (∀ t ∈ [goods301, goods302], t.id ≠ "Express_999") ∧
      dispatchTrain "Express_999" [goods301, goods302] = [goods301, goods302] ∧
      (∀ t ∈ [goods301d, goods302], t.id = "Goods_301" → t.dispatched = true) ∧
      dispatchTrain "Goods_301" [goods301d, goods302] = [goods301d, goods302] := by
  have h1 : ∀ t ∈ [goods301, goods302], t.id ≠ "Express_999" := by
    intro t ht
    fin_cases ht
    · simp [goods301]
    · simp [goods302]
  have h3 : ∀ t ∈ [goods301d, goods302], t.id = "Goods_301" → t.dispatched = true := by
    intro t ht
    fin_cases ht
    · intro
      rfl
    · intro hc
      exact absurd hc (by simp [goods302])
  exact ⟨h1, (C8_dispatcher_exact [] [goods301, goods302] "Express_999").2.1 h1,
    h3, (C8_dispatcher_exact [] [goods301d, goods302] "Goods_301").2.2 h3⟩

/-- The station graph nodes of `track_data` (app.py lines 34-40). -/
def track_nodes : List String :=
  ["Ballari Junction", "Signal_BLR_1", "Siding_Entry", "Toranagallu",
    "Signal_TOR_1", "Kudligi", "Hosapete"]

/-- The undirected edges of `track_data` with their `base_time_mins` weight
(app.py lines 41-49); `create_railway_graph` sets `time_cost` from these. -/
def track_edges : List (String × String × ℕ) :=
  [("Ballari Junction", "Signal_BLR_1", 8),
    ("Signal_BLR_1", "Toranagallu", 12),
    ("Toranagallu", "Signal_TOR_1", 4),
    ("Signal_TOR_1", "Kudligi", 15),
    ("Toranagallu", "Hosapete", 20),
    ("Ballari Junction", "Siding_Entry", 15),
    ("Siding_Entry", "Toranagallu", 15)]

/-- The `base_time_mins` of the undirected edge between two nodes, if any. -/
def base_time (u v : String) : Option ℕ :=
  track_edges.findSome? (fun e =>
    if (e.1 = u ∧ e.2.1 = v) ∨ (e.1 = v ∧ e.2.1 = u) then some e.2.2 else none)

/-- The neighbours of a node in the undirected station graph. -/
def neighbors (u : String) : List String :=
  track_edges.filterMap (fun e =>
    if e.1 = u then some e.2.1 else if e.2.1 = u then some e.1 else none)

/-- Embedding of `update_graph_with_traffic` (app.py lines 66-71): the
traversal cost of an edge is its `base_time_mins`, replaced by `9999` when the
edge occurs in the blocked set in either direction; blocked edges are kept in
the graph, not removed. -/
def time_cost (occ : List (String × String)) (u v : String) : Option ℕ :=
  (base_time u v).map (fun b => if (u, v) ∈ occ ∨ (v, u) ∈ occ then 9999 else b)

/-- Total `time_cost` of a node sequence. -/
def path_cost (occ : List (String × String)) : List String → ℕ
  | u :: v :: rest => (time_cost occ u v).getD 0 + path_cost occ (v :: rest)
  | _ => 0

/-- All simple paths from `cur` to `target` avoiding `visited`, by depth-first
enumeration with fuel. -/
def pathsAux : ℕ → String → String → List String → List (List String)
  | 0, _, _, _ => []
  | fuel + 1, cur, target, visited =>
    if cur = target then [[cur]]
    else
      ((neighbors cur).filter (fun n => n ∉ visited)).flatMap
        (fun n => (pathsAux fuel n target (cur :: visited)).map (fun p => cur :: p))

/-- All simple paths between two nodes of the station graph. -/
def simplePaths (s t : String) : List (List String) :=
  pathsAux track_nodes.length s t []

/-- The networkx exceptions relevant to `find_optimal_path`: `NodeNotFound`
derives directly from `NetworkXException`, while `NetworkXNoPath` derives from
`NetworkXUnfeasible`; in particular `NodeNotFound` is NOT a subclass of
`NetworkXNoPath`. -/
inductive NxError where
  | nodeNotFound
  | noPath
deriving DecidableEq

/-- Model of the external networkx function `nx.astar_path(G, s, t,
weight="time_cost")` as called in app.py line 62 (no heuristic, so it is
Dijkstra): it raises `NodeNotFound` when source or target is not a node of the
graph, raises `NetworkXNoPath` when the target is unreachable, and otherwise
returns a minimum-total-weight path. -/
def astar_path (occ : List (String × String)) (source target : String) :
    Except NxError (List String) :=
  if source ∉ track_nodes ∨ target ∉ track_nodes then .error .nodeNotFound
  else
    match (simplePaths source target).argmin (path_cost occ) with
    | some p => .ok p
    | none => .error .noPath

/-- Embedding of `find_optimal_path` (app.py lines 60-64): only
`nx.NetworkXNoPath` is caught and turned into `None`; any other exception
(such as `NodeNotFound`) propagates to the caller. -/
def find_optimal_path (occ : List (String × String)) (start_node end_node : String) :
    Except NxError (Option (List String)) :=
  match astar_path occ start_node end_node with
  | .ok p => .ok (some p)
  | .error .noPath => .ok none
  | .error e => .error e

/-- The JSON result assembled by the `/api/path` route (app.py lines 224-229). -/
structure PathResult where
  start_node : String
  end_node : String
  optimal_path : Option (List String)
  blocked_tracks_at_moment : List (String × String)

/-- Embedding of the route handler `get_path` (app.py lines 215-230): build the
graph, apply the traffic costs from the snapshot's blocked set, run the
pathfinder, and return the result record; an uncaught exception escapes the
handler (the request errors out with no result). -/
def get_path (occ : List (String × String)) (start_node end_node : String) :
    Except NxError PathResult :=
  match find_optimal_path occ start_node end_node with
  | .ok p =>
    .ok { start_node := start_node, end_node := end_node, optimal_path := p,
          blocked_tracks_at_moment := occ }
  | .error e => .error e

/-- C4, corrected: a path query naming an unknown start or end node makes the
uncaught `NodeNotFound` exception escape the handler — the request errors out
instead of returning an explicit "not found" result (`find_optimal_path`
catches only `NetworkXNoPath`). -/
theorem C4_amended_unknown_node_uncaught (occ : List (String × String))
    (s t : String) (h : s ∉ track_nodes ∨ t ∉ track_nodes) :
    get_path occ s t = Except.error NxError.nodeNotFound := by
  unfold get_path find_optimal_path astar_path
  rw [if_pos h]

/-- Witness for the corrected C4 at the unknown start node `"Hampi"`. -/
theorem C4_amended_unknown_node_uncaught_witness :
    (("Hampi" : String) ∉ track_nodes ∨ ("Hosapete" : String) ∉ track_nodes) ∧
      get_path [] "Hampi" "Hosapete" = Except.error NxError.nodeNotFound :=
  ⟨Or.inl (by decide),
    C4_amended_unknown_node_uncaught [] "Hampi" "Hosapete" (Or.inl (by decide))⟩

/-- Counterexample to C4 as stated: the query from the unknown node `"Hampi"`
to `"Hosapete"` does not produce a "not found" result for the caller — the
`NodeNotFound` exception (not a `NetworkXNoPath`) escapes `find_optimal_path`
uncaught and the request crashes. -/
theorem C4_counterexample :
    ("Hampi" : String) ∉ track_nodes ∧
      find_optimal_path [] "Hampi" "Hosapete" = Except.error NxError.nodeNotFound ∧
      get_path [] "Hampi" "Hosapete" = Except.error NxError.nodeNotFound := by
  refine ⟨by decide, ?_, ?_⟩ <;> rfl

/-- Every edge of the station graph joins two distinct listed nodes. -/
lemma track_edges_wf :
    ∀ e ∈ track_edges, e.1 ∈ track_nodes ∧ e.2.1 ∈ track_nodes ∧ e.1 ≠ e.2.1 := by
  decide

/-- Membership in the neighbour list, unfolded to the edge list. -/
lemma mem_neighbors {u v : String} :
    v ∈ neighbors u ↔
      ∃ e ∈ track_edges, (e.1 = u ∧ e.2.1 = v) ∨ (e.2.1 = u ∧ e.1 = v) := by
  unfold neighbors
  rw [List.mem_filterMap]
  constructor
  · rintro ⟨e, he, hf⟩
    refine ⟨e, he, ?_⟩
    by_cases h1 : e.1 = u
    · rw [if_pos h1] at hf
      exact Or.inl ⟨h1, Option.some.inj hf⟩
    · rw [if_neg h1] at hf
      by_cases h2 : e.2.1 = u
      · rw [if_pos h2] at hf
        exact Or.inr ⟨h2, Option.some.inj hf⟩
      · rw [if_neg h2] at hf
        exact absurd hf (by simp)
  · rintro ⟨e, he, h | h⟩
    · exact ⟨e, he, by rw [if_pos h.1, h.2]⟩
    · refine ⟨e, he, ?_⟩
      by_cases h1 : e.1 = u
      · rw [if_pos h1]
        rw [h.1, ← h.2, h1]
      · rw [if_neg h1, if_pos h.1, h.2]

/-- A neighbour is itself a node of the station graph. -/
lemma neighbors_mem_nodes {u v : String} (h : v ∈ neighbors u) : v ∈ track_nodes := by
  rcases mem_neighbors.mp h with ⟨e, he, ⟨-, h2⟩ | ⟨-, h2⟩⟩
  · exact h2 ▸ (track_edges_wf e he).2.1
  · exact h2 ▸ (track_edges_wf e he).1

/-- The station graph has no self-loops. -/
lemma neighbors_ne {u v : String} (h : v ∈ neighbors u) : u ≠ v := by
  rcases mem_neighbors.mp h with ⟨e, he, ⟨h1, h2⟩ | ⟨h1, h2⟩⟩
  · rw [← h1, ← h2]
    exact (track_edges_wf e he).2.2
  · rw [← h1, ← h2]
    exact (track_edges_wf e he).2.2.symm

/-- A valid path of the station graph: starts at `s`, ends at `t`, and each
consecutive pair is joined by an edge. -/
def IsTrackPath (s t : String) (p : List String) : Prop :=
  p.head? = some s ∧ p.getLast? = some t ∧
    List.Chain' (fun u v => v ∈ neighbors u) p

/-- Soundness of the enumeration: every produced list is a valid simple path
from `cur` to `target` avoiding `visited`. -/
lemma pathsAux_sound :
    ∀ (fuel : ℕ) (cur target : String) (visited : List String) (p : List String),
      p ∈ pathsAux fuel cur target visited → cur ∉ visited →
      IsTrackPath cur target p ∧ p.Nodup ∧ ∀ x ∈ p, x ∉ visited := by
  intro fuel
  induction fuel with
  | zero => intro cur target visited p hp; exact absurd hp (List.not_mem_nil p)
  | succ fuel ih =>
    intro cur target visited p hp hcur
    rw [pathsAux] at hp
    by_cases hct : cur = target
    · rw [if_pos hct] at hp
      have hp1 : p = [cur] := by simpa using hp
      subst hp1
      refine ⟨⟨rfl, by rw [hct]; rfl, List.chain'_singleton cur⟩, List.nodup_singleton cur, ?_⟩
      intro x hx
      rw [List.mem_singleton] at hx
      exact hx ▸ hcur
    · rw [if_neg hct] at hp
      rw [List.mem_flatMap] at hp
      obtain ⟨n, hn, hpmem⟩ := hp
      rw [List.mem_filter] at hn
      obtain ⟨hn1, hn2⟩ := hn
      have hn2' : n ∉ visited := of_decide_eq_true hn2
      rw [List.mem_map] at hpmem
      obtain ⟨q, hq, hpq⟩ := hpmem
      have hnc : n ∉ cur :: visited := by
        intro hmem
        rcases List.mem_cons.mp hmem with h | h
        · exact (neighbors_ne hn1) h.symm
        · exact hn2' h
      obtain ⟨⟨hqh, hqt, hqc⟩, hqn, hqv⟩ := ih n target (cur :: visited) q hq hnc
      subst hpq
      have hqne : q ≠ [] := by
        intro h
        rw [h] at hqh
        exact Option.noConfusion hqh
      refine ⟨⟨rfl, ?_, ?_⟩, ?_, ?_⟩
      · cases q with
        | nil => exact absurd rfl hqne
        | cons b bs => rw [List.getLast?_cons_cons]; exact hqt
      · rw [List.chain'_cons']
        refine ⟨?_, hqc⟩
        intro y hy
        rw [hqh] at hy
        rw [Option.mem_some_iff] at hy
        exact hy ▸ hn1
      · rw [List.nodup_cons]
        refine ⟨?_, hqn⟩
        intro hmem
        exact (hqv cur hmem) (List.mem_cons_self cur visited)
      · intro x hx
        rcases List.mem_cons.mp hx with h | h
        · exact h ▸ hcur
        · intro hv
          exact (hqv x h) (List.mem_cons_of_mem cur hv)

/-- Completeness of the enumeration: every valid simple path from `cur` to
`target` avoiding `visited` is produced, given enough fuel. -/
lemma pathsAux_complete :
    ∀ (fuel : ℕ) (cur target : String) (visited : List String) (p : List String),
      p.head? = some cur → p.getLast? = some target →
      List.Chain' (fun u v => v ∈ neighbors u) p → p.Nodup →
      (∀ x ∈ p, x ∉ visited) → p.length ≤ fuel →
      p ∈ pathsAux fuel cur target visited := by
  intro fuel
  induction fuel with
  | zero =>
    intro cur target visited p hh _ _ _ _ hlen
    rw [Nat.le_zero, List.length_eq_zero] at hlen
    rw [hlen] at hh
    exact Option.noConfusion hh
  | succ fuel ih =>
    intro cur target visited p hh ht hc hn hv hlen
    cases p with
    | nil => exact Option.noConfusion hh
    | cons a rest =>
      have ha : a = cur := by
        rw [List.head?_cons, Option.some.injEq] at hh
        exact hh
      subst ha
      rw [pathsAux]
      by_cases hct : a = target
      · rw [if_pos hct]
        have hrest : rest = [] := by
          cases rest with
          | nil => rfl
          | cons b bs =>
            exfalso
            rw [List.getLast?_cons_cons] at ht
            have : target ∈ b :: bs := List.mem_of_getLast?_eq_some ht
            rw [← hct] at this
            exact (List.nodup_cons.mp hn).1 this
        rw [hrest]
        exact List.mem_singleton.mpr rfl
      · rw [if_neg hct]
        cases rest with
        | nil =>
          exfalso
          rw [List.getLast?_singleton, Option.some.injEq] at ht
          exact hct ht
        | cons n rest2 =>
          rw [List.chain'_cons'] at hc
          have hn1 : n ∈ neighbors a := by
            have := hc.1 n
            rw [List.head?_cons] at this
            exact this rfl
          rw [List.mem_flatMap]
          refine ⟨n, ?_, ?_⟩
          · rw [List.mem_filter]
            refine ⟨hn1, decide_eq_true ?_⟩
            exact hv n (List.mem_cons_of_mem a (List.mem_cons_self n rest2))
          · rw [List.mem_map]
            refine ⟨n :: rest2, ?_, rfl⟩
            refine ih n target (a :: visited) (n :: rest2) rfl ?_ hc.2
              (List.nodup_cons.mp hn).2 ?_ ?_
            · rw [List.getLast?_cons_cons] at ht
              exact ht
            · intro x hx
              intro hmem
              rcases List.mem_cons.mp hmem with h | h
              · rw [h] at hx
                exact (List.nodup_cons.mp hn).1 hx
              · exact hv x (List.mem_cons_of_mem a hx) h
            · have := hlen
              rw [List.length_cons] at this
              exact Nat.lt_succ_iff.mp (Nat.lt_of_lt_of_le (Nat.lt_succ_self _) this)

/-- Every node visited by a valid path lies in the station graph. -/
lemma chain'_subset_nodes :
    ∀ (p : List String) (s : String), p.head? = some s → s ∈ track_nodes →
      List.Chain' (fun u v => v ∈ neighbors u) p → ∀ x ∈ p, x ∈ track_nodes := by
  intro p
  induction p with
  | nil => intro s _ _ _ x hx; exact absurd hx (List.not_mem_nil x)
  | cons a rest ih =>
    intro s hh hs hc x hx
    have ha : a = s := by
      rw [List.head?_cons, Option.some.injEq] at hh
      exact hh
    subst ha
    rcases List.mem_cons.mp hx with h | h
    · exact h ▸ hs
    · cases rest with
      | nil => exact absurd h (List.not_mem_nil x)
      | cons b bs =>
        rw [List.chain'_cons'] at hc
        have hb : b ∈ neighbors a := by
          have := hc.1 b
          rw [List.head?_cons] at this
          exact this rfl
        exact ih b rfl (neighbors_mem_nodes hb) hc.2 x h

/-- A duplicate-free path through the station graph is no longer than the node
list. -/
lemma nodup_path_length_le (p : List String) (hn : p.Nodup)
    (hsub : ∀ x ∈ p, x ∈ track_nodes) : p.length ≤ track_nodes.length :=
  (List.subperm_of_subset hn (fun _ hx => hsub _ hx)).length_le

/-- Every valid duplicate-free path between nodes of the graph is enumerated. -/
lemma mem_simplePaths_of_valid {s t : String} {p : List String}
    (hs : s ∈ track_nodes) (h : IsTrackPath s t p) (hn : p.Nodup) :
    p ∈ simplePaths s t :=
  pathsAux_complete track_nodes.length s t [] p h.1 h.2.1 h.2.2 hn
    (fun x _ => List.not_mem_nil x)
    (nodup_path_length_le p hn (chain'_subset_nodes p s h.1 hs h.2.2))

/-- Every enumerated path is a valid, duplicate-free path. -/
lemma valid_of_mem_simplePaths {s t : String} {p : List String}
    (h : p ∈ simplePaths s t) : IsTrackPath s t p ∧ p.Nodup :=
  have h' := pathsAux_sound track_nodes.length s t [] p h (List.not_mem_nil s)
  ⟨h'.1, h'.2.1⟩

/-- C9: blocked edges are re-costed, never removed, and the query always
answers.  For every blocked-set snapshot and every pair of known nodes: each
graph edge's traversal cost is `9999` when the edge occurs in the blocked set
in either direction and its `base_time_mins` otherwise; the route handler
returns a result (no exception); when no route exists the result carries an
explicit `none` path; and when any route exists — even one forced through
blocked edges — the result carries some valid path of minimal total cost. -/
theorem C9_blocked_cost_and_explicit_null (occ : List (String × String))
    (s t : String) (hs : s ∈ track_nodes) (ht : t ∈ track_nodes) :
    (∀ u v b, base_time u v = some b →
        time_cost occ u v =
          some (if (u, v) ∈ occ ∨ (v, u) ∈ occ then 9999 else b)) ∧
      ∃ r : PathResult, get_path occ s t = Except.ok r ∧
        ((∀ p, ¬(IsTrackPath s t p ∧ p.Nodup)) → r.optimal_path = none) ∧
        (∀ q, IsTrackPath s t q → q.Nodup →
          ∃ p, r.optimal_path = some p ∧ IsTrackPath s t p ∧ p.Nodup ∧
            path_cost occ p ≤ path_cost occ q) := by
  constructor
  · intro u v b hb
    unfold time_cost
    rw [hb]
    rfl
  · have hnodes : ¬(s ∉ track_nodes ∨ t ∉ track_nodes) := by
      push_neg
      exact ⟨hs, ht⟩
    unfold get_path find_optimal_path astar_path
    rw [if_neg hnodes]
    cases hmatch : (simplePaths s t).argmin (path_cost occ) with
    | none =>
      refine ⟨_, rfl, fun _ => rfl, fun q hq hqn => ?_⟩
      exfalso
      have hmem := mem_simplePaths_of_valid hs hq hqn
      rw [List.argmin_eq_none.mp hmatch] at hmem
      exact List.not_mem_nil q hmem
    | some p =>
      have hmem : p ∈ (simplePaths s t).argmin (path_cost occ) := by
        rw [hmatch]; rfl
      have hvalid := valid_of_mem_simplePaths (List.argmin_mem hmem)
      refine ⟨_, rfl, fun habs => absurd ⟨hvalid.1, hvalid.2⟩ (habs p), fun q hq hqn => ?_⟩
      exact ⟨p, rfl, hvalid.1, hvalid.2,
        List.le_of_mem_argmin (mem_simplePaths_of_valid hs hq hqn) hmem⟩

/-- Witness for C9: the query from Ballari Junction to Hosapete with the sole
Toranagallu—Hosapete approach blocked. -/
theorem C9_blocked_cost_and_explicit_null_witness :
    ("Ballari Junction" : String) ∈ track_nodes ∧
      ("Hosapete" : String) ∈ track_nodes ∧
      (∃ r : PathResult,
        get_path [("Toranagallu", "Hosapete")] "Ballari Junction" "Hosapete" =
          Except.ok r ∧
        (∀ q, IsTrackPath "Ballari Junction" "Hosapete" q → q.Nodup →
          ∃ p, r.optimal_path = some p ∧
            IsTrackPath "Ballari Junction" "Hosapete" p ∧ p.Nodup ∧
            path_cost [("Toranagallu", "Hosapete")] p ≤
              path_cost [("Toranagallu", "Hosapete")] q)) := by
  have h := C9_blocked_cost_and_explicit_null [("Toranagallu", "Hosapete")]
    "Ballari Junction" "Hosapete" (by decide) (by decide)
  obtain ⟨r, hr, -, hmin⟩ := h.2
  exact ⟨by decide, by decide, ⟨r, hr, hmin⟩⟩
